import Mathlib

/-!
Shallow embedding of the `Modular<const Q: u32>` ring kernel of
`src/src/lib.rs` (crate root; `src/src/matrices.rs` is a draft that is not in
the crate's module tree — `lib.rs` declares only `pub mod modular`).

Machine integers are modelled as `Nat` with explicit bounds:
`u32` values are naturals `≤ U32MAX`, `u64` values naturals `≤ U64MAX`.
Rust's arithmetic operators are embedded in their checked (debug) semantics,
returning `Option Nat`: `none` models the overflow / division-by-zero panic.
A truncating `as u32` cast is `wrap32` (reduction mod 2^32), and the one place
where the release-mode wrapping semantics of `+` is also of interest
(the `Sub` impl of `lib.rs`, which performs an unchecked `u32` addition) gets a
second embedding `subWrap` with the wrapping behaviour.
-/

def U32MAX : Nat := 4294967295

def U64MAX : Nat := 18446744073709551615

/-- Truncating `as u32` cast: reduction modulo 2^32. -/
def wrap32 (x : Nat) : Nat := x % 4294967296

/-- Rust `u32::add` in checked (debug) semantics and likewise
`u32::checked_add`: `none` on overflow. -/
def u32add (x y : Nat) : Option Nat :=
  if x + y ≤ U32MAX then some (x + y) else none

/-- Rust `u32` subtraction `x - y`: `none` on underflow. -/
def u32sub (x y : Nat) : Option Nat :=
  if y ≤ x then some (x - y) else none

/-- Rust `u32::mul` in checked (debug) semantics and likewise
`u32::checked_mul`: `none` on overflow. -/
def u32mul (x y : Nat) : Option Nat :=
  if x * y ≤ U32MAX then some (x * y) else none

/-- Rust `%` on `u32`: panics (`none`) exactly when the divisor is zero. -/
def u32rem (x q : Nat) : Option Nat :=
  if q = 0 then none else some (x % q)

/-- Rust `u64::add` in checked (debug) semantics: `none` on overflow. -/
def u64add (x y : Nat) : Option Nat :=
  if x + y ≤ U64MAX then some (x + y) else none

/-- Rust `u64::mul` in checked (debug) semantics: `none` on overflow. -/
def u64mul (x y : Nat) : Option Nat :=
  if x * y ≤ U64MAX then some (x * y) else none

/-- Rust `%` on `u64`: panics (`none`) exactly when the divisor is zero. -/
def u64rem (x q : Nat) : Option Nat :=
  if q = 0 then none else some (x % q)

/-- The struct `Modular<const Q: u32>(u32)`: a single stored `u32` field.
The const parameter `Q` is passed explicitly to each operation. Equality is
the derived `PartialEq`: structural equality of the stored field. -/
structure Modular where
  val : Nat
deriving DecidableEq

/-- Representation invariant stated by the source's doc comment:
elements are represented as integers in `[0, Q)`. -/
def Modular.Wf (Q : Nat) (a : Modular) : Prop := a.val < Q

instance (Q : Nat) (a : Modular) : Decidable (Modular.Wf Q a) := by
  unfold Modular.Wf
  infer_instance

/-- Embedding of `impl From<[u32; 1]> for Modular<Q>`:
`Modular(x[0] % Q)`. The `%` panics (`none`) exactly when `Q = 0`. -/
def from_value (Q x : Nat) : Option Modular :=
  (u32rem x Q).map Modular.mk

/-- Embedding of `Zero::zero`: `Modular(0)`. -/
def Modular.zero : Modular := ⟨0⟩

/-- Embedding of `One::one`: `Modular(1)`, with no reduction modulo `Q`. -/
def Modular.one : Modular := ⟨1⟩

/-- Embedding of `Zero::is_zero`: `self.0 == 0`, comparing the stored field
without reducing it modulo `Q`. -/
def is_zero (a : Modular) : Bool := a.val == 0

/-- Embedding of `impl Add for Modular<Q>` (the `checked_opp!(add, Add,
checked_add)` expansion): when `u32::checked_add(Q, Q)` is `None` both
operands are widened to `u64`, added, reduced `% Q` and truncated back with
`as u32`; otherwise the two stored fields are added directly in `u32`.
Either way the result goes through `Modular::from`. -/
def add (Q : Nat) (a b : Modular) : Option Modular :=
  if u32add Q Q = none then
    (u64add a.val b.val).bind fun s =>
      (u64rem s Q).bind fun r => from_value Q (wrap32 r)
  else
    (u32add a.val b.val).bind fun s => from_value Q s

/-- Embedding of `impl Mul for Modular<Q>` (the `checked_opp!(mul, Mul,
checked_mul)` expansion): when `u32::checked_mul(Q, Q)` is `None` both
operands are widened to `u64`, multiplied, reduced `% Q` and truncated back
with `as u32`; otherwise the stored fields are multiplied directly in `u32`.
Either way the result goes through `Modular::from`. -/
def mul (Q : Nat) (a b : Modular) : Option Modular :=
  if u32mul Q Q = none then
    (u64mul a.val b.val).bind fun s =>
      (u64rem s Q).bind fun r => from_value Q (wrap32 r)
  else
    (u32mul a.val b.val).bind fun s => from_value Q s

/-- Embedding of `impl Neg for Modular<Q>`: `Modular::from([Q - self.0])`,
with the `u32` subtraction panicking (`none`) on underflow. -/
def neg (Q : Nat) (a : Modular) : Option Modular :=
  (u32sub Q a.val).bind fun d => from_value Q d

/-- Embedding of `impl Sub for Modular<Q>` in `lib.rs`:
`Modular::from([self.0 + other.neg().0])`. The inner `+` is a plain `u32`
addition outside the `checked_opp!` widening machinery; here it carries the
checked (debug) semantics, so `none` models the overflow panic. -/
def sub (Q : Nat) (a b : Modular) : Option Modular :=
  (neg Q b).bind fun nb =>
    (u32add a.val nb.val).bind fun s => from_value Q s

/-- The same `Sub` impl under release semantics, where the unchecked `u32`
addition wraps modulo 2^32 instead of panicking. -/
def subWrap (Q : Nat) (a b : Modular) : Option Modular :=
  (neg Q b).bind fun nb => from_value Q (wrap32 (a.val + nb.val))

/-! ## Basic evaluation lemmas -/

theorem from_value_pos {Q : Nat} (x : Nat) (hQ : 1 ≤ Q) :
    from_value Q x = some ⟨x % Q⟩ := by
  unfold from_value u32rem
  rw [if_neg (by omega)]
  rfl

theorem u32add_some {x y : Nat} (h : x + y ≤ U32MAX) :
    u32add x y = some (x + y) := by
  unfold u32add
  rw [if_pos h]

theorem u64add_some {x y : Nat} (h : x + y ≤ U64MAX) :
    u64add x y = some (x + y) := by
  unfold u64add
  rw [if_pos h]

theorem u64rem_pos {x Q : Nat} (hQ : 1 ≤ Q) :
    u64rem x Q = some (x % Q) := by
  unfold u64rem
  rw [if_neg (by omega)]

theorem wrap32_small {x : Nat} (h : x ≤ U32MAX) : wrap32 x = x := by
  unfold wrap32
  exact Nat.mod_eq_of_lt (by unfold U32MAX at h; omega)

/-- On invariant-satisfying operands of a representable modulus, `add`
returns exactly the reduced sum of the stored fields: both the widened
and the narrow path are exact. -/
theorem add_val {Q : Nat} (a b : Modular) (hQ : 1 ≤ Q) (hQm : Q ≤ U32MAX)
    (ha : a.val < Q) (hb : b.val < Q) :
    add Q a b = some ⟨(a.val + b.val) % Q⟩ := by
  unfold add
  by_cases hwide : u32add Q Q = none
  · rw [if_pos hwide]
    rw [u64add_some (by unfold U64MAX; unfold U32MAX at hQm; omega)]
    rw [Option.some_bind, u64rem_pos hQ, Option.some_bind]
    rw [wrap32_small (le_trans (le_of_lt (Nat.mod_lt _ (by omega))) hQm)]
    rw [from_value_pos _ hQ, Nat.mod_mod_of_dvd _ dvd_rfl]
  · rw [if_neg hwide]
    have hnarrow : Q + Q ≤ U32MAX := by
      by_contra hgt
      exact hwide (by unfold u32add; rw [if_neg (by omega)])
    rw [u32add_some (by omega), Option.some_bind, from_value_pos _ hQ]

/-- On invariant-satisfying operands of a representable modulus, `mul`
returns exactly the reduced product of the stored fields: both the widened
and the narrow path are exact. -/
theorem mul_val {Q : Nat} (a b : Modular) (hQ : 1 ≤ Q) (hQm : Q ≤ U32MAX)
    (ha : a.val < Q) (hb : b.val < Q) :
    mul Q a b = some ⟨(a.val * b.val) % Q⟩ := by
  unfold mul
  by_cases hwide : u32mul Q Q = none
  · rw [if_pos hwide]
    have hfit : a.val * b.val ≤ U64MAX := by
      calc a.val * b.val ≤ U32MAX * U32MAX :=
            Nat.mul_le_mul (le_trans (le_of_lt ha) hQm)
              (le_trans (le_of_lt hb) hQm)
        _ ≤ U64MAX := by unfold U32MAX U64MAX; omega
    rw [show u64mul a.val b.val = some (a.val * b.val) by
      unfold u64mul; rw [if_pos hfit]]
    rw [Option.some_bind, u64rem_pos hQ, Option.some_bind]
    rw [wrap32_small (le_trans (le_of_lt (Nat.mod_lt _ (by omega))) hQm)]
    rw [from_value_pos _ hQ, Nat.mod_mod_of_dvd _ dvd_rfl]
  · rw [if_neg hwide]
    have hnarrow : Q * Q ≤ U32MAX := by
      by_contra hgt
      exact hwide (by unfold u32mul; rw [if_neg (by omega)])
    have hfit : a.val * b.val ≤ U32MAX :=
      le_trans (Nat.mul_le_mul (le_of_lt ha) (le_of_lt hb)) hnarrow
    rw [show u32mul a.val b.val = some (a.val * b.val) by
      unfold u32mul; rw [if_pos hfit]]
    rw [Option.some_bind, from_value_pos _ hQ]

/-- On an invariant-satisfying operand of a positive modulus, `neg` returns
`(Q - a.val) % Q`. -/
theorem neg_val {Q : Nat} (a : Modular) (hQ : 1 ≤ Q) (ha : a.val < Q) :
    neg Q a = some ⟨(Q - a.val) % Q⟩ := by
  unfold neg u32sub
  rw [if_pos (le_of_lt ha), Option.some_bind, from_value_pos _ hQ]

/-! ## Claim theorems -/

/-- C1: for every modulus `Q ≥ 2` and all representable `x, y`, adding the
modular values constructed from `x` and from `y` yields the modular value
constructed from `(x + y) % Q`, including for every modulus where `2Q`
overflows the native 32-bit width: the widened 64-bit path produces the
exact value with no silent wraparound. -/
theorem add_of_from_values (Q x y : Nat) (hQ : 2 ≤ Q) (hQm : Q ≤ U32MAX)
    (hx : x ≤ U32MAX) (hy : y ≤ U32MAX) :
    ((from_value Q x).bind fun a => (from_value Q y).bind fun b => add Q a b)
      = from_value Q ((x + y) % Q) := by
  have h1 : (1 : Nat) ≤ Q := by omega
  rw [from_value_pos x h1, from_value_pos y h1, Option.some_bind,
    Option.some_bind]
  rw [add_val _ _ h1 hQm (Nat.mod_lt _ (by omega)) (Nat.mod_lt _ (by omega))]
  rw [from_value_pos _ h1, Nat.mod_mod_of_dvd _ dvd_rfl, ← Nat.add_mod]

/-- Witness for C1 at a modulus where `2Q` overflows 32 bits. -/
theorem add_of_from_values_witness :
    ((from_value 4294967295 4294967294).bind fun a =>
      (from_value 4294967295 4294967293).bind fun b => add 4294967295 a b)
      = from_value 4294967295 ((4294967294 + 4294967293) % 4294967295) :=
  add_of_from_values 4294967295 4294967294 4294967293
    (by decide) (by decide) (by decide) (by decide)

/-- C6: for every modulus `1 ≤ Q ≤ u32::MAX` and invariant-satisfying
operands, `mul` returns exactly the reduced product of the stored fields —
the result is as if both operands were widened to 64 bits, so it is exact
even when `Q * Q` overflows 32 bits. -/
theorem mul_exact (Q : Nat) (a b : Modular) (hQ : 1 ≤ Q) (hQm : Q ≤ U32MAX)
    (ha : a.val < Q) (hb : b.val < Q) :
    mul Q a b = some ⟨(a.val * b.val) % Q⟩ :=
  mul_val a b hQ hQm ha hb

/-- Witness for C6: the spec's concrete scenario `Q = 37`, `13 * 5 = 28`. -/
theorem mul_exact_witness : mul 37 ⟨13⟩ ⟨5⟩ = some ⟨28⟩ :=
  mul_exact 37 ⟨13⟩ ⟨5⟩ (by decide) (by decide) (by decide) (by decide)

/-- C7: construction with modulus `Q = 0` fails with the division-by-zero
panic of `%` (modelled as `none`), never a silently returned value, while
construction with any `Q ≥ 1` from any representable raw integer succeeds
with the reduced value. -/
theorem from_value_zero_modulus (Q x : Nat) (hx : x ≤ U32MAX) :
    (Q = 0 → from_value Q x = none) ∧
      (1 ≤ Q → from_value Q x = some ⟨x % Q⟩) := by
  constructor
  · intro h
    subst h
    rfl
  · intro h
    exact from_value_pos x h

/-- Witness for C7 at `Q = 0` and `Q = 7` with raw input `5`. -/
theorem from_value_zero_modulus_witness :
    from_value 0 5 = none ∧ from_value 7 5 = some ⟨5⟩ :=
  ⟨(from_value_zero_modulus 0 5 (by decide)).1 rfl,
    (from_value_zero_modulus 7 5 (by decide)).2 (by decide)⟩

/-- C8: for every modulus `1 ≤ Q ≤ u32::MAX` and invariant-satisfying `a`,
`neg` returns the modular value `(Q - a.val) % Q` (so `neg` of the zero
value is the zero value), and `a + neg a` is the zero value. -/
theorem neg_correct (Q : Nat) (a : Modular) (hQ : 1 ≤ Q) (hQm : Q ≤ U32MAX)
    (ha : a.val < Q) :
    neg Q a = some ⟨(Q - a.val) % Q⟩ ∧
      add Q a ⟨(Q - a.val) % Q⟩ = some Modular.zero := by
  refine ⟨neg_val a hQ ha, ?_⟩
  rw [add_val a _ hQ hQm ha (Nat.mod_lt _ (by omega))]
  unfold Modular.zero
  simp only [Option.some.injEq, Modular.mk.injEq]
  by_cases h0 : a.val = 0
  · simp [h0, Nat.mod_self]
  · rw [Nat.mod_eq_of_lt (show Q - a.val < Q by omega),
      show a.val + (Q - a.val) = Q by omega, Nat.mod_self]

/-- Witness for C8 at `Q = 13`, `a = 5`. -/
theorem neg_correct_witness :
    neg 13 ⟨5⟩ = some ⟨8⟩ ∧ add 13 ⟨5⟩ ⟨8⟩ = some Modular.zero :=
  neg_correct 13 ⟨5⟩ (by decide) (by decide) (by decide)

/-- C9: for every modulus `1 ≤ Q ≤ u32::MAX` and invariant-satisfying
operands, addition and multiplication are associative and commutative and
multiplication distributes over addition. -/
theorem ring_laws (Q : Nat) (a b c : Modular) (hQ : 1 ≤ Q) (hQm : Q ≤ U32MAX)
    (ha : a.val < Q) (hb : b.val < Q) (hc : c.val < Q) :
    ((add Q a b).bind fun x => add Q x c)
        = ((add Q b c).bind fun x => add Q a x) ∧
      add Q a b = add Q b a ∧
      ((mul Q a b).bind fun x => mul Q x c)
        = ((mul Q b c).bind fun x => mul Q a x) ∧
      mul Q a b = mul Q b a ∧
      ((add Q b c).bind fun x => mul Q a x)
        = ((mul Q a b).bind fun x => (mul Q a c).bind fun y => add Q x y) := by
  have hmod : ∀ n : Nat, n % Q < Q := fun n => Nat.mod_lt n (by omega)
  refine ⟨?_, ?_, ?_, ?_, ?_⟩
  · rw [add_val a b hQ hQm ha hb, Option.some_bind,
      add_val _ c hQ hQm (hmod _) hc,
      add_val b c hQ hQm hb hc, Option.some_bind,
      add_val a _ hQ hQm ha (hmod _)]
    simp only [Option.some.injEq, Modular.mk.injEq]
    exact ((Nat.mod_modEq (a.val + b.val) Q).add_right c.val).trans
      (by rw [Nat.add_assoc]
          exact ((Nat.mod_modEq (b.val + c.val) Q).add_left a.val).symm)
  · rw [add_val a b hQ hQm ha hb, add_val b a hQ hQm hb ha,
      Nat.add_comm]
  · rw [mul_val a b hQ hQm ha hb, Option.some_bind,
      mul_val _ c hQ hQm (hmod _) hc,
      mul_val b c hQ hQm hb hc, Option.some_bind,
      mul_val a _ hQ hQm ha (hmod _)]
    simp only [Option.some.injEq, Modular.mk.injEq]
    exact ((Nat.mod_modEq (a.val * b.val) Q).mul_right c.val).trans
      (by rw [Nat.mul_assoc]
          exact ((Nat.mod_modEq (b.val * c.val) Q).mul_left a.val).symm)
  · rw [mul_val a b hQ hQm ha hb, mul_val b a hQ hQm hb ha,
      Nat.mul_comm]
  · rw [add_val b c hQ hQm hb hc, Option.some_bind,
      mul_val a _ hQ hQm ha (hmod _),
      mul_val a b hQ hQm ha hb, Option.some_bind,
      mul_val a c hQ hQm ha hc, Option.some_bind,
      add_val _ _ hQ hQm (hmod _) (hmod _)]
    simp only [Option.some.injEq, Modular.mk.injEq]
    exact ((Nat.mod_modEq (b.val + c.val) Q).mul_left a.val).trans
      (by rw [Nat.mul_add]
          exact ((Nat.mod_modEq (a.val * b.val) Q).add
            (Nat.mod_modEq (a.val * c.val) Q)).symm)

/-- Witness for C9: commutativity of multiplication at `Q = 13`. -/
theorem ring_laws_witness : mul 13 ⟨3⟩ ⟨5⟩ = mul 13 ⟨5⟩ ⟨3⟩ :=
  (ring_laws 13 ⟨3⟩ ⟨5⟩ ⟨7⟩ (by decide) (by decide) (by decide) (by decide)
    (by decide)).2.2.2.1

/-- C10: `is_zero` reports `true` exactly when the stored field is `0`,
equivalently exactly when the value equals `zero()`; it performs no reduction
modulo `Q`, so a stored representative that is `Q` or larger is reported
non-zero even when it is congruent to `0` modulo `Q`. -/
theorem is_zero_iff (Q : Nat) (a : Modular) :
    (is_zero a = true ↔ a.val = 0) ∧
      (is_zero a = true ↔ a = Modular.zero) ∧
      (1 ≤ Q → Q ≤ a.val → a.val % Q = 0 → is_zero a = false) := by
  unfold is_zero Modular.zero
  refine ⟨by simp, ?_, ?_⟩
  · cases a with
    | mk v =>
      simp [Modular.mk.injEq]
  · intro h1 h2 _
    simp only [beq_eq_false_iff_ne, ne_eq]
    omega

/-- Witness for C10: the stored representative `1` at modulus `Q = 1` is
congruent to `0` yet reported non-zero. -/
theorem is_zero_iff_witness : is_zero ⟨1⟩ = false :=
  (is_zero_iff 1 ⟨1⟩).2.2 (by decide) (by decide) (by decide)

/-- C2 fails on the code: at the representable modulus `Q = 4294967295`
(`u32::MAX`), the invariant-satisfying operands `4294967294` and `1` make
`Sub` of `lib.rs` overflow its unchecked inner `u32` addition
`self.0 + other.neg().0`, so the operation is not total: it panics in a
debug build (modelled as `none`). -/
theorem sub_overflow_at_max_modulus :
    Modular.Wf 4294967295 ⟨4294967294⟩ ∧ Modular.Wf 4294967295 ⟨1⟩ ∧
      sub 4294967295 ⟨4294967294⟩ ⟨1⟩ = none := by
  refine ⟨by decide, by decide, ?_⟩
  rfl

/-- C3 fails on the code: at `Q = 4294967295`, `a = 4294967294`, `b = 1`,
the `lib.rs` subtraction `a - b` panics under debug semantics (`none`) and
under release (wrapping) semantics returns the residue `4294967292`, while
`a + (-b)` — the value the claim requires, computed through the checked
widening addition — is `4294967293`. -/
theorem sub_ne_add_neg_at_max_modulus :
    sub 4294967295 ⟨4294967294⟩ ⟨1⟩ = none ∧
      subWrap 4294967295 ⟨4294967294⟩ ⟨1⟩ = some ⟨4294967292⟩ ∧
      ((neg 4294967295 ⟨1⟩).bind fun nb => add 4294967295 ⟨4294967294⟩ nb)
        = some ⟨4294967293⟩ := by
  refine ⟨rfl, rfl, rfl⟩

/-- C4 fails on the code at `Q = 1`: `one()` returns the raw stored value
`1` with no reduction, violating the representation invariant
`0 ≤ value < Q` that the claim (and the source's own doc comment) states
for every observable value. -/
theorem one_breaks_invariant_at_degenerate_modulus :
    Modular.one.val = 1 ∧ ¬ Modular.Wf 1 Modular.one := by
  refine ⟨rfl, by decide⟩

/-- C5 fails on the code at `Q = 1`: `one()` is `Modular(1)`, which the
derived structural equality distinguishes from `zero() = Modular(0)`; the
four arithmetic operations at `Q = 1` do all return the modular value `0`,
on the reduced value `0` as well as on the unreduced `one()`. -/
theorem one_ne_zero_at_degenerate_modulus :
    Modular.one ≠ Modular.zero ∧
      add 1 Modular.zero Modular.zero = some Modular.zero ∧
      mul 1 Modular.zero Modular.zero = some Modular.zero ∧
      neg 1 Modular.zero = some Modular.zero ∧
      sub 1 Modular.zero Modular.zero = some Modular.zero ∧
      add 1 Modular.one Modular.one = some Modular.zero ∧
      mul 1 Modular.one Modular.one = some Modular.zero ∧
      neg 1 Modular.one = some Modular.zero ∧
      sub 1 Modular.one Modular.one = some Modular.zero := by
  refine ⟨by decide, rfl, rfl, rfl, rfl, rfl, rfl, rfl, rfl⟩
